import Mathlib

set_option linter.unusedVariables false
set_option maxRecDepth 100000

/- Shallow embedding of the F1 constructor performance tracker pipeline:
   month derivation and partitioned storage (src/tracker/add_month.py),
   cleaning/deduplication (src/tracker/clean.py) and monthly aggregation
   with month-over-month growth (src/tracker/sql.py).

   Machine representation notes:
   - pandas DataFrames become lists of records plus an explicit column list
     where column presence matters (the bronze layer); numeric `points`
     columns become `Option Rat` with `none` playing the role of NaN/NULL;
   - `df.sort_values` on several columns is numpy lexsort, which is stable,
     so it is embedded as a stable insertion sort on a lexicographic key;
   - `assert` statements become `Except` error results;
   - in-place column assignment (`df["m"] = m`) is embedded by explicit
     state passing: the returned frame is also the post-state of the
     function's argument. -/

namespace Tracker

/- ------------------------------------------------------------------ -/
/- Generic list machinery: stable sort and keep-first deduplication.  -/
/- ------------------------------------------------------------------ -/

/-- Insert `x` into `l` before the first element whose key is not below
`key x`; inserting before equal keys is what makes the sort stable. -/
def insertSorted {α κ : Type} [LinearOrder κ] (key : α → κ) (x : α) : List α → List α
  | [] => [x]
  | y :: ys => if key x ≤ key y then x :: y :: ys else y :: insertSorted key x ys

/-- Stable insertion sort by a key into a linear order.  Embeds
`DataFrame.sort_values` on several columns (numpy lexsort, stable). -/
def sortStable {α κ : Type} [LinearOrder κ] (key : α → κ) : List α → List α
  | [] => []
  | x :: xs => insertSorted key x (sortStable key xs)

/-- Scan keeping the first record of each key; `seen` collects the keys
already emitted. -/
def dropDupFirstAux {α β : Type} [DecidableEq β] (key : α → β) : List β → List α → List α
  | _, [] => []
  | seen, x :: xs =>
    if key x ∈ seen then dropDupFirstAux key seen xs
    else x :: dropDupFirstAux key (key x :: seen) xs

/-- Embeds `DataFrame.drop_duplicates(subset=key, keep="first")`. -/
def dropDupFirst {α β : Type} [DecidableEq β] (key : α → β) (l : List α) : List α :=
  dropDupFirstAux key [] l

/- ------------------------------------------------------------------ -/
/- Dates.                                                             -/
/- ------------------------------------------------------------------ -/

/-- A timestamp: calendar fields plus an optional timezone offset in
minutes (`none` = timezone-naive, as in datetime64[ns]). -/
structure DateTime where
  year : Int
  month : Nat
  day : Nat
  tz : Option Int
deriving DecidableEq

/-- Chronological sort key of a timestamp (an injective reading of its
fields; the values compared in the pipeline are all timezone-naive). -/
def DateTime.key (d : DateTime) : Int ×ₗ (Nat ×ₗ (Nat ×ₗ WithBot Int)) :=
  toLex (d.year, toLex (d.month, toLex (d.day,
    match d.tz with
    | none => (⊥ : WithBot Int)
    | some o => (o : WithBot Int))))

/-- First calendar day of the containing month, timezone-naive: embeds
`dt.to_period("M").dt.to_timestamp(...)`. -/
def monthStart (d : DateTime) : DateTime := ⟨d.year, d.month, 1, none⟩

/-- Embeds `dt.tz_localize(None)`: drop the offset, keep the wall clock. -/
def stripTz (d : DateTime) : DateTime := ⟨d.year, d.month, d.day, none⟩

/- ------------------------------------------------------------------ -/
/- Aggregator (src/tracker/sql.py).  The silver parquet file read by   -/
/- the query has the cleaned-layer schema; points is a nullable        -/
/- numeric column.                                                     -/
/- ------------------------------------------------------------------ -/

/-- One row of the silver (cleaned) layer as read by the DuckDB query. -/
structure SilverRow where
  race_id : Nat
  race_date : DateTime
  constructor_id : Nat
  constructor_name : Option String
  points : Option Rat
  m : DateTime
deriving DecidableEq

/-- Grouping key of the `monthly` CTE: `GROUP BY 1,2,3` groups on
(constructor_id, constructor_name, m). -/
def key3 (r : SilverRow) : Nat × Option String × DateTime :=
  (r.constructor_id, r.constructor_name, r.m)

/-- SQL `SUM` over a nullable column: NULLs are ignored, a group with no
non-NULL value sums to NULL, otherwise the non-NULL values are folded up
starting from the first one. -/
def sqlSum (xs : List (Option Rat)) : Option Rat :=
  match xs.filterMap id with
  | [] => none
  | v :: vs => some (vs.foldl (· + ·) v)

/-- One row of the `monthly` CTE. -/
structure MonthlyRow where
  constructor_id : Nat
  constructor_name : Option String
  m : DateTime
  points_m : Option Rat
deriving DecidableEq

/-- The points cells of one group of the `monthly` CTE. -/
def groupPoints (rows : List SilverRow) (k : Nat × Option String × DateTime) :
    List (Option Rat) :=
  (rows.filter fun r => key3 r = k).map fun r => r.points

/-- The `monthly` row of one grouping key. -/
def monthlyOf (rows : List SilverRow) (k : Nat × Option String × DateTime) : MonthlyRow :=
  ⟨k.1, k.2.1, k.2.2, sqlSum (groupPoints rows k)⟩

/-- The `monthly` CTE: one row per distinct (constructor_id,
constructor_name, m) key with `SUM(points)` over the group. -/
def monthly (rows : List SilverRow) : List MonthlyRow :=
  ((rows.map key3).dedup).map (monthlyOf rows)

/-- One row of the `with_prev` CTE, carrying the `LAG` column. -/
structure PrevRow where
  constructor_id : Nat
  constructor_name : Option String
  m : DateTime
  points_m : Option Rat
  prev_points_m : Option Rat
deriving DecidableEq

/-- A `monthly` row paired with its `LAG` value. -/
def prevOfM (r : MonthlyRow) (p : Option Rat) : PrevRow :=
  ⟨r.constructor_id, r.constructor_name, r.m, r.points_m, p⟩

/-- `LAG(points_m)` along one window partition: the accumulator `p` is
the previous row's `points_m`, NULL in front of the first row.  As in
SQL, "no previous row" and "previous row holds NULL" both yield NULL. -/
def lagGo (p : Option Rat) : List MonthlyRow → List PrevRow
  | [] => []
  | r :: rs => prevOfM r p :: lagGo r.points_m rs

/-- Window ordering key: `ORDER BY m` inside the window. -/
def monKey (r : MonthlyRow) : Int ×ₗ (Nat ×ₗ (Nat ×ₗ WithBot Int)) := DateTime.key r.m

/-- The `monthly` rows of one window partition (`PARTITION BY
constructor_id`), ordered by `m`. -/
def constructorSeq (rows : List SilverRow) (c : Nat) : List MonthlyRow :=
  sortStable monKey ((monthly rows).filter fun r => r.constructor_id = c)

/-- The `with_prev` rows of one window partition. -/
def constructorChain (rows : List SilverRow) (c : Nat) : List PrevRow :=
  lagGo none (constructorSeq rows c)

/-- The `CASE WHEN prev_points_m IS NULL OR prev_points_m = 0 THEN NULL
ELSE (points_m - prev_points_m) * 1.0 / prev_points_m END` projection;
NULL arithmetic propagates when `points_m` is NULL. -/
def momGrowth (p prev : Option Rat) : Option Rat :=
  match prev with
  | none => none
  | some pv => if pv = 0 then none else p.map fun cv => (cv - pv) / pv

/-- One row of the gold (aggregate) layer. -/
structure GoldRow where
  constructor_id : Nat
  constructor_name : Option String
  m : DateTime
  points_m : Option Rat
  mom_growth : Option Rat
deriving DecidableEq

/-- Final projection of one `with_prev` row. -/
def goldOfPrev (r : PrevRow) : GoldRow :=
  ⟨r.constructor_id, r.constructor_name, r.m, r.points_m,
    momGrowth r.points_m r.prev_points_m⟩

/-- The distinct window partitions (`PARTITION BY constructor_id`). -/
def aggCids (rows : List SilverRow) : List Nat :=
  ((monthly rows).map fun r => r.constructor_id).dedup

/-- Key of the final `ORDER BY constructor_id, m`. -/
def goldKey (g : GoldRow) : Nat ×ₗ (Int ×ₗ (Nat ×ₗ (Nat ×ₗ WithBot Int))) :=
  toLex (g.constructor_id, DateTime.key g.m)

/-- The whole aggregation query of src/tracker/sql.py: monthly grouping,
window LAG per constructor, growth projection, final ordering. -/
def aggregate (rows : List SilverRow) : List GoldRow :=
  sortStable goldKey
    ((((aggCids rows).map fun c => constructorChain rows c).flatten).map goldOfPrev)

/-- Total of a group as the spec words it: sum of the non-missing points
when at least one is present.  (Used to compare against `sqlSum`.) -/
def specGroupTotal (ps : List (Option Rat)) : Option Rat :=
  if ps.any fun p => p.isSome then some (ps.filterMap id).sum else none

/-- Uniqueness of (constructor_id, m) across the `monthly` CTE; this is
what the spec's aggregate-layer invariant presumes. -/
def monthlyKeysUnique (rows : List SilverRow) : Prop :=
  (((monthly rows).map fun r => (r.constructor_id, r.m)).Nodup)

/- ------------------------------------------------------------------ -/
/- Cleaner: deduplication (src/tracker/clean.py, _dedupe_by_pair).     -/
/- The bronze parquet points column is numeric, so NaN is the only      -/
/- missing form at this stage; it is embedded as `none`.               -/
/- ------------------------------------------------------------------ -/

/-- A month-tagged record as it enters `_dedupe_by_pair`. -/
structure SRow where
  race_id : Nat
  race_date : DateTime
  m : DateTime
  constructor_id : Nat
  constructor_name : Option String
  points : Option Rat
deriving DecidableEq

/-- The deduplication key (race_id, constructor_id). -/
def pairKey (r : SRow) : Nat × Nat := (r.race_id, r.constructor_id)

/-- Rank of a points cell for sorting: NaN below every number, so that
descending order puts NaN last (`na_position="last"`). -/
def pointsRank (p : Option Rat) : WithBot Rat :=
  match p with
  | none => ⊥
  | some q => (q : WithBot Rat)

/-- Sort key of `sort_values(["race_id", "constructor_id", "points"],
ascending=[True, True, False])`: points descending via the order dual. -/
def dedupeSortKey (r : SRow) : Nat ×ₗ (Nat ×ₗ (WithBot Rat)ᵒᵈ) :=
  toLex (r.race_id, toLex (r.constructor_id, OrderDual.toDual (pointsRank r.points)))

/-- `_dedupe_by_pair`: stable sort, keep the first row of each
(race_id, constructor_id) key, report how many rows were dropped. -/
def dedupe_by_pair (rows : List SRow) : List SRow × Nat :=
  let kept := dropDupFirst pairKey (sortStable dedupeSortKey rows)
  (kept, rows.length - kept.length)

/-- Modelled from the spec (selection rule, for comparison with the
implementation): within a key the highest non-missing points value wins,
and on ties - including both missing - the first record in original
input order wins (a later record replaces an earlier one only when its
points rank strictly higher). -/
def specDedupWinner (k : Nat × Nat) : List SRow → Option SRow
  | [] => none
  | r :: rs =>
    if pairKey r = k then
      match specDedupWinner k rs with
      | none => some r
      | some w => if pointsRank r.points < pointsRank w.points then some w else some r
    else specDedupWinner k rs

/- ------------------------------------------------------------------ -/
/- Cleaner: value sanitization (src/tracker/clean.py, _clean_values).  -/
/- ------------------------------------------------------------------ -/

/-- A raw points cell before coercion: a number, a numeric string
(carrying the number it denotes), an uncoercible string, or missing. -/
inductive PVal
  | num (q : Rat)
  | numStr (q : Rat)
  | badStr
  | null
deriving DecidableEq

/-- `pd.to_numeric(..., errors="coerce")`: values that fail coercion
become missing instead of raising. -/
def toNumericCoerce : PVal → Option Rat
  | .num q => some q
  | .numStr q => some q
  | .badStr => none
  | .null => none

/-- A record entering `_clean_values` (points not yet coerced). -/
structure CVRow where
  race_id : Nat
  race_date : DateTime
  m : DateTime
  constructor_id : Nat
  constructor_name : Option String
  points : PVal
deriving DecidableEq

/-- A record after `_clean_values` (points numeric or missing). -/
structure CVRowN where
  race_id : Nat
  race_date : DateTime
  m : DateTime
  constructor_id : Nat
  constructor_name : Option String
  points : Option Rat
deriving DecidableEq

/-- The quality-metrics dict returned by `_clean_values`. -/
structure Issues where
  neg_points_found : Nat
  missing_points : Nat
  missing_constructor_name : Nat
deriving DecidableEq

/-- Column pass `df["points"] = pd.to_numeric(df["points"], errors="coerce")`. -/
def coerceRow (r : CVRow) : CVRowN :=
  ⟨r.race_id, r.race_date, r.m, r.constructor_id, r.constructor_name,
    toNumericCoerce r.points⟩

/-- The boolean mask `df["points"] < 0` (false on missing). -/
def isNegB (p : Option Rat) : Bool :=
  match p with
  | some q => decide (q < 0)
  | none => false

/-- The masked assignment `df.loc[neg_mask, "points"] = pd.NA` on one row. -/
def maskNeg (r : CVRowN) : CVRowN :=
  if isNegB r.points then
    ⟨r.race_id, r.race_date, r.m, r.constructor_id, r.constructor_name, none⟩
  else r

/-- `_clean_values`: coerce points, count and blank the negative values
(only when any were found, as the code guards), then count the missing
points and missing constructor names. -/
def clean_values (rows : List CVRow) : List CVRowN × Issues :=
  let coerced := rows.map coerceRow
  let negCount := coerced.countP fun r => isNegB r.points
  let masked := if negCount > 0 then coerced.map maskNeg else coerced
  let missing := masked.countP fun r => decide (r.points = none)
  let missName := masked.countP fun r => decide (r.constructor_name = none)
  (masked, ⟨negCount, missing, missName⟩)

/-- Row-level reading of the sanitization pipeline: coercion failure
becomes missing, a negative value becomes missing, a non-negative value
survives. -/
def sanitizePoints (p : PVal) : Option Rat :=
  match toNumericCoerce p with
  | none => none
  | some q => if q < 0 then none else some q

/- ------------------------------------------------------------------ -/
/- Bronze layer frames: column list matters (src/tracker/add_month.py  -/
/- and the schema/month steps of src/tracker/clean.py).                -/
/- ------------------------------------------------------------------ -/

/-- The column names of the bronze/month-tagged layers. -/
inductive Col
  | race_id | race_date | constructor_id | constructor_name | points | m
deriving DecidableEq

/-- A raw race_date cell: an already-parsed timestamp, a parseable date
string (carrying the timestamp it denotes), or an unparseable value. -/
inductive DVal
  | dt (d : DateTime)
  | dstr (d : DateTime)
  | dbad
deriving DecidableEq

/-- A raw m cell: a timestamp, a parseable string, an unparseable value,
or absent (the column does not exist; the cell carries no data). -/
inductive MV
  | mdt (d : DateTime)
  | mstr (d : DateTime)
  | mbad
  | mnone
deriving DecidableEq

/-- A bronze-layer record. -/
structure BRow where
  race_id : Nat
  race_date : DVal
  constructor_id : Nat
  constructor_name : Option String
  points : PVal
  mval : MV
deriving DecidableEq

/-- A bronze-layer frame: the list of columns present plus the records.
`mval` fields are meaningful only when `Col.m` is among the columns. -/
structure BDf where
  cols : List Col
  rows : List BRow
deriving DecidableEq

/-- The failure modes of the assert- and raise-based checks. -/
inductive CErr
  | schemaErr | parseErr | typeErr | invariantErr | integrityErr
deriving DecidableEq

/-- `pd.to_datetime(value, errors="raise")` on a race_date cell. -/
def parseRD : DVal → Option DateTime
  | .dt d => some d
  | .dstr d => some d
  | .dbad => none

/-- `pd.to_datetime(value, errors="raise")` on an m cell. -/
def parseMV : MV → Option DateTime
  | .mdt d => some d
  | .mstr d => some d
  | .mbad => none
  | .mnone => none

/-- Column-wide `pd.to_datetime(df["race_date"], errors="raise")`. -/
def parseRDRows : List BRow → Except CErr (List BRow)
  | [] => .ok []
  | r :: rs =>
    match parseRD r.race_date with
    | none => .error .parseErr
    | some d =>
      match parseRDRows rs with
      | .error e => .error e
      | .ok rest => .ok ({ r with race_date := DVal.dt d } :: rest)

/-- Is the race_date column of datetime dtype (every cell a timestamp)? -/
def rdIsDt (r : BRow) : Bool := match r.race_date with | .dt _ => true | _ => false

/-- Does the race_date cell carry a timezone offset? -/
def rdHasTz (r : BRow) : Bool :=
  match r.race_date with
  | .dt d => d.tz.isSome
  | _ => false

/-- `df["race_date"].dt.tz_localize(None)` on one row. -/
def stripRowTz (r : BRow) : BRow :=
  match r.race_date with
  | .dt d => { r with race_date := DVal.dt (stripTz d) }
  | _ => r

/-- `_ensure_datetime` applied to the race_date column: parse unless the
column is already datetime dtype, then strip the timezone if present. -/
def ensure_race_date (df : BDf) : Except CErr BDf :=
  match (if df.rows.all rdIsDt then Except.ok df.rows else parseRDRows df.rows) with
  | .error e => .error e
  | .ok rows1 =>
    .ok { cols := df.cols,
          rows := if rows1.any rdHasTz then rows1.map stripRowTz else rows1 }

/-- Column-wide `pd.to_datetime(df["m"], errors="raise")`. -/
def parseMVRows : List BRow → Except CErr (List BRow)
  | [] => .ok []
  | r :: rs =>
    match parseMV r.mval with
    | none => .error .parseErr
    | some d =>
      match parseMVRows rs with
      | .error e => .error e
      | .ok rest => .ok ({ r with mval := MV.mdt d } :: rest)

/-- Column-wide `df["m"] = df["race_date"].dt.to_period("M").dt.to_timestamp(...)`;
accessing `.dt` on a non-datetime race_date column raises. -/
def deriveMRows : List BRow → Except CErr (List BRow)
  | [] => .ok []
  | r :: rs =>
    match r.race_date with
    | .dt d =>
      match deriveMRows rs with
      | .error e => .error e
      | .ok rest => .ok ({ r with mval := MV.mdt (monthStart d) } :: rest)
    | _ => .error .typeErr

/-- The month-derivation step on one row whose race_date is a timestamp
(identity on the impossible non-timestamp case). -/
def deriveRowM (r : BRow) : BRow :=
  match r.race_date with
  | .dt d => { r with mval := MV.mdt (monthStart d) }
  | _ => r

/-- The m-cell re-parse step on one row whose cell parses (identity on
the impossible failing case). -/
def parseMRowOk (r : BRow) : BRow :=
  match parseMV r.mval with
  | some d => { r with mval := MV.mdt d }
  | none => r

/-- Is the m column of datetime dtype (every cell a timestamp)? -/
def mIsDt (r : BRow) : Bool := match r.mval with | .mdt _ => true | _ => false

/-- The check `(df["m"].dt.day == 1).all()` on one row. -/
def mDay1 (r : BRow) : Bool := match r.mval with | .mdt d => d.day == 1 | _ => false

/-- The closing asserts of `_ensure_month` (and of `add_month_col`): m
must be datetime dtype and hold only first-of-month values; on success
the frame gains the m column if it was absent. -/
def monthChecked (df : BDf) (rows1 : List BRow) : Except CErr BDf :=
  if rows1.all mIsDt && rows1.all mDay1 then
    .ok ⟨if Col.m ∈ df.cols then df.cols else df.cols ++ [Col.m], rows1⟩
  else .error .invariantErr

/-- `_ensure_month`: re-parse the m column when it exists, otherwise
derive it from race_date; then assert datetime dtype and first-day. -/
def ensure_month (df : BDf) : Except CErr BDf :=
  match (if Col.m ∈ df.cols then parseMVRows df.rows else deriveMRows df.rows) with
  | .error e => .error e
  | .ok rows1 => monthChecked df rows1

/-- The column set `_expect_columns` receives in `clean.main`. -/
def requiredCols : List Col :=
  [.race_id, .race_date, .constructor_id, .constructor_name, .points]

/-- `_expect_columns`: assert that no required column is missing. -/
def expect_columns (df : BDf) : Except CErr Unit :=
  if requiredCols.all fun c => decide (c ∈ df.cols) then .ok () else .error .schemaErr

/-- The schema/date/month front of `clean.main` (lines 81-84): expect
the five raw columns, normalize race_date, ensure the month column. -/
def clean_front (df : BDf) : Except CErr BDf :=
  match expect_columns df with
  | .error e => .error e
  | .ok _ =>
    match ensure_race_date df with
    | .error e => .error e
    | .ok df2 => ensure_month df2

/- ------------------------------------------------------------------ -/
/- Month Deriver and Partition Writer (src/tracker/add_month.py).      -/
/- ------------------------------------------------------------------ -/

/-- The timezone-strip and month-derivation tail of `add_month_col`. -/
def addMonthDerive (df : BDf) (rows1 : List BRow) : Except CErr BDf :=
  match deriveMRows (if rows1.any rdHasTz then rows1.map stripRowTz else rows1) with
  | .error e => .error e
  | .ok rows3 => monthChecked df rows3

/-- `add_month_col`: parse race_date unless already datetime dtype,
strip its timezone if any, assign the truncated month column `m`, then
assert the dtype and first-day invariants.  All column assignments hit
the argument frame itself, so on success the returned frame is also the
argument's post-state (the callers in the source pass a copy). -/
def add_month_col (df : BDf) : Except CErr BDf :=
  match (if df.rows.all rdIsDt then Except.ok df.rows else parseRDRows df.rows) with
  | .error e => .error e
  | .ok rows1 => addMonthDerive df rows1

/-- The state of the argument frame after `add_month_col` returns
successfully: the function assigns into its argument in place, so the
post-state is the returned frame (unchanged here on the error path,
where the source may in fact have partially assigned). -/
def add_month_col_argAfter (df : BDf) : BDf :=
  match add_month_col df with
  | .ok out => out
  | .error _ => df

/-- The m cell as a partition key value. -/
def mvalDate (r : BRow) : Option DateTime := match r.mval with | .mdt d => some d | _ => none

/-- The partition layout: one unit per distinct month value in sorted
order, each holding exactly that month's rows. -/
def partitionsOf (df : BDf) : List (DateTime × List BRow) :=
  (sortStable DateTime.key ((df.rows.filterMap mvalDate).dedup)).map
    fun d => (d, df.rows.filter fun r => decide (mvalDate r = some d))

/-- `save_partitioned`: assert the preconditions on `m`, write one
partition per distinct month, then the row-count integrity check. -/
def save_partitioned (df : BDf) : Except CErr (List (DateTime × List BRow)) :=
  if Col.m ∈ df.cols then
    if df.rows.all mIsDt then
      if df.rows.all mDay1 then
        if ((partitionsOf df).map fun p => p.2.length).sum = df.rows.length then
          .ok (partitionsOf df)
        else .error .integrityErr
      else .error .invariantErr
    else .error .invariantErr
  else .error .schemaErr

/- ------------------------------------------------------------------ -/
/- Concrete data used to exhibit behaviour at specific inputs.         -/
/- ------------------------------------------------------------------ -/

/-- First of March 2021. -/
def mMar : DateTime := ⟨2021, 3, 1, none⟩

/-- First of April 2021. -/
def mApr : DateTime := ⟨2021, 4, 1, none⟩

/-- First of May 2021. -/
def mMay : DateTime := ⟨2021, 5, 1, none⟩

/-- A cleaned-layer row with given race id, constructor id, name, month
and points (race_date collapsed onto the month for brevity). -/
def mkSilver (rid cid : Nat) (nm : Option String) (mo : DateTime) (p : Option Rat) :
    SilverRow :=
  ⟨rid, mo, cid, nm, p, mo⟩

/-- A group whose only points cell is missing. -/
def rowsAllMissing : List SilverRow := [mkSilver 1 1 (some "A") mMar none]

/-- One March group holding a present and a missing points cell. -/
def rowsSumW : List SilverRow :=
  [mkSilver 1 1 (some "A") mMar (some 8), mkSilver 2 1 (some "A") mMar none]

/-- A constructor whose March total is NULL (all points missing) and
whose April total is 5. -/
def rowsNullPrev : List SilverRow :=
  [mkSilver 1 1 (some "A") mMar none, mkSilver 2 1 (some "A") mApr (some 5)]

/-- A constructor with March total 8 and May total 10 - April absent. -/
def rowsGrowthW : List SilverRow :=
  [mkSilver 1 1 (some "A") mMar (some 8), mkSilver 2 1 (some "A") mMay (some 10)]

/-- One constructor id appearing under two display names in one month. -/
def rowsTwoNames : List SilverRow :=
  [mkSilver 1 1 (some "A") mMar (some 5), mkSilver 2 1 (some "B") mMar (some 7)]

/-- The gap scenario: an aggregate in March, none in April, one in May. -/
def rowsGapW : List SilverRow :=
  [mkSilver 1 1 (some "A") mMar (some 8), mkSilver 2 1 (some "A") mMay (some 10)]

/-- Records entering `_clean_values`: a negative value, an uncoercible
string and a plain value. -/
def cvRowsW : List CVRow :=
  [⟨1, mMar, mMar, 1, some "A", PVal.num (-3)⟩,
   ⟨2, mMar, mMar, 2, some "B", PVal.badStr⟩,
   ⟨3, mMar, mMar, 3, none, PVal.num 5⟩]

/-- A bronze record with a parsed, timezone-naive race date and no m
cell. -/
def bRowW : BRow :=
  ⟨1, DVal.dt ⟨2021, 3, 14, none⟩, 1, some "A", PVal.num 5, MV.mnone⟩

/-- A bronze frame without the m column. -/
def dfNoM : BDf := ⟨requiredCols, [bRowW]⟩

/-- A month-tagged bronze frame (m column present and first-of-month). -/
def dfWithM : BDf :=
  ⟨requiredCols ++ [Col.m], [{ bRowW with mval := MV.mdt mMar }]⟩

/-- Duplicate (race_id, constructor_id) rows with points 5 and 8, plus a
missing-points duplicate, as in the spec's first scenario. -/
def dupRowsW : List SRow :=
  [⟨1, mMar, mMar, 1, some "A", some 5⟩,
   ⟨1, mMar, mMar, 1, some "A", some 8⟩,
   ⟨2, mMar, mMar, 1, some "A", none⟩]

/- ------------------------------------------------------------------ -/
/- Lemmas about the stable sort.                                       -/
/- ------------------------------------------------------------------ -/

theorem insertSorted_perm {α κ : Type} [LinearOrder κ] (key : α → κ) (x : α)
    (l : List α) : (insertSorted key x l).Perm (x :: l) := by
  induction l with
  | nil => exact List.Perm.refl _
  | cons y ys ih =>
    by_cases h : key x ≤ key y
    · rw [insertSorted, if_pos h]
    · rw [insertSorted, if_neg h]
      exact (ih.cons y).trans (List.Perm.swap x y ys)

theorem sortStable_perm {α κ : Type} [LinearOrder κ] (key : α → κ) (l : List α) :
    (sortStable key l).Perm l := by
  induction l with
  | nil => exact List.Perm.refl _
  | cons x xs ih => exact (insertSorted_perm key x _).trans (ih.cons x)

theorem mem_sortStable {α κ : Type} [LinearOrder κ] (key : α → κ) (l : List α)
    (a : α) : a ∈ sortStable key l ↔ a ∈ l :=
  (sortStable_perm key l).mem_iff

theorem length_sortStable {α κ : Type} [LinearOrder κ] (key : α → κ) (l : List α) :
    (sortStable key l).length = l.length :=
  (sortStable_perm key l).length_eq

theorem insertSorted_pairwise {α κ : Type} [LinearOrder κ] (key : α → κ) (x : α)
    (l : List α) (h : l.Pairwise fun a b => key a ≤ key b) :
    (insertSorted key x l).Pairwise fun a b => key a ≤ key b := by
  induction l with
  | nil => simp [insertSorted]
  | cons y ys ih =>
    rcases List.pairwise_cons.mp h with ⟨hy, hys⟩
    by_cases hx : key x ≤ key y
    · rw [insertSorted, if_pos hx]
      refine List.pairwise_cons.mpr ⟨?_, h⟩
      intro b hb
      rcases List.mem_cons.mp hb with rfl | hb2
      · exact hx
      · exact le_trans hx (hy b hb2)
    · rw [insertSorted, if_neg hx]
      refine List.pairwise_cons.mpr ⟨?_, ih hys⟩
      intro b hb
      rcases List.mem_cons.mp ((insertSorted_perm key x ys).mem_iff.mp hb) with h2 | hb2
      · exact h2 ▸ le_of_lt (not_le.mp hx)
      · exact hy b hb2

theorem sortStable_pairwise {α κ : Type} [LinearOrder κ] (key : α → κ) (l : List α) :
    (sortStable key l).Pairwise fun a b => key a ≤ key b := by
  induction l with
  | nil => simp [sortStable]
  | cons x xs ih => exact insertSorted_pairwise key x _ ih

theorem insertSorted_of_le {α κ : Type} [LinearOrder κ] (key : α → κ) (x : α)
    (l : List α) (h : ∀ b ∈ l, key x ≤ key b) : insertSorted key x l = x :: l := by
  cases l with
  | nil => rfl
  | cons y ys => rw [insertSorted, if_pos (h y (List.mem_cons_self y ys))]

theorem sortStable_eq_self {α κ : Type} [LinearOrder κ] (key : α → κ) (l : List α)
    (h : l.Pairwise fun a b => key a ≤ key b) : sortStable key l = l := by
  induction l with
  | nil => rfl
  | cons x xs ih =>
    rcases List.pairwise_cons.mp h with ⟨hx, hxs⟩
    rw [sortStable, ih hxs, insertSorted_of_le key x xs hx]

theorem find?_insertSorted_neg {α κ : Type} [LinearOrder κ] (key : α → κ)
    (p : α → Bool) (x : α) (l : List α) (hp : p x = false) :
    (insertSorted key x l).find? p = l.find? p := by
  induction l with
  | nil => simp [insertSorted, List.find?, hp]
  | cons y ys ih =>
    by_cases hx : key x ≤ key y
    · rw [insertSorted, if_pos hx, List.find?_cons, hp]
    · rw [insertSorted, if_neg hx, List.find?_cons, List.find?_cons]
      cases hy : p y
      · simpa [hy] using ih
      · simp [hy]

theorem find?_insertSorted_pos {α κ : Type} [LinearOrder κ] (key : α → κ)
    (p : α → Bool) (x : α) (l : List α)
    (hl : l.Pairwise fun a b => key a ≤ key b) (hp : p x = true) :
    (insertSorted key x l).find? p =
      some (match l.find? p with
            | none => x
            | some f => if key x ≤ key f then x else f) := by
  induction l with
  | nil => simp [insertSorted, List.find?, hp]
  | cons y ys ih =>
    rcases List.pairwise_cons.mp hl with ⟨hy, hys⟩
    by_cases hx : key x ≤ key y
    · rw [insertSorted, if_pos hx, List.find?_cons, hp]
      cases hf : (y :: ys).find? p with
      | none => rfl
      | some f =>
        have hfm : f ∈ y :: ys := List.mem_of_find?_eq_some hf
        have hxf : key x ≤ key f := by
          rcases List.mem_cons.mp hfm with rfl | h2
          · exact hx
          · exact le_trans hx (hy f h2)
        simp [if_pos hxf]
    · rw [insertSorted, if_neg hx, List.find?_cons, List.find?_cons]
      cases hpy : p y with
      | true =>
        have hyx : ¬ key x ≤ key y := hx
        simp [if_neg hyx]
      | false =>
        simpa using ih hys

/- ------------------------------------------------------------------ -/
/- Lemmas about keep-first deduplication.                              -/
/- ------------------------------------------------------------------ -/

theorem dropDupFirstAux_sublist {α β : Type} [DecidableEq β] (key : α → β)
    (seen : List β) (l : List α) : List.Sublist (dropDupFirstAux key seen l) l := by
  induction l generalizing seen with
  | nil => exact List.Sublist.refl _
  | cons x xs ih =>
    rw [dropDupFirstAux]
    by_cases h : key x ∈ seen
    · rw [if_pos h]; exact (ih seen).cons x
    · rw [if_neg h]; exact (ih _).cons₂ x

theorem find?_dropDupFirstAux {α β : Type} [DecidableEq β] (key : α → β) (k : β)
    (seen : List β) (l : List α) (hk : k ∉ seen) :
    (dropDupFirstAux key seen l).find? (fun a => key a = k) =
      l.find? (fun a => key a = k) := by
  induction l generalizing seen with
  | nil => rfl
  | cons x xs ih =>
    rw [dropDupFirstAux]
    by_cases h : key x ∈ seen
    · rw [if_pos h]
      have hx : (key x = k) = False := by
        simp only [eq_iff_iff, iff_false]
        exact fun he => hk (he ▸ h)
      rw [ih seen hk, List.find?_cons]
      simp [hx]
    · rw [if_neg h]
      by_cases hx : key x = k
      · rw [List.find?_cons, List.find?_cons]
        simp [hx]
      · rw [List.find?_cons, List.find?_cons]
        simp only [hx, decide_False]
        exact ih (key x :: seen) (by
          intro hmem
          rcases List.mem_cons.mp hmem with h2 | h2
          · exact hx h2.symm
          · exact hk h2)

theorem dropDupFirstAux_keys {α β : Type} [DecidableEq β] (key : α → β)
    (seen : List β) (l : List α) :
    ((dropDupFirstAux key seen l).map key).Nodup ∧
      ∀ b ∈ (dropDupFirstAux key seen l).map key, b ∉ seen := by
  induction l generalizing seen with
  | nil => simp [dropDupFirstAux]
  | cons x xs ih =>
    rw [dropDupFirstAux]
    by_cases h : key x ∈ seen
    · rw [if_pos h]; exact ih seen
    · rw [if_neg h]
      obtain ⟨h1, h2⟩ := ih (key x :: seen)
      refine ⟨List.nodup_cons.mpr ⟨?_, h1⟩, ?_⟩
      · intro hmem
        exact (h2 _ hmem) (List.mem_cons_self _ _)
      · intro b hb
        rcases List.mem_cons.mp hb with rfl | hb2
        · exact h
        · intro hbseen
          exact (h2 b hb2) (List.mem_cons_of_mem _ hbseen)

theorem dropDupFirstAux_eq_self {α β : Type} [DecidableEq β] (key : α → β)
    (seen : List β) (l : List α) (h1 : (l.map key).Nodup)
    (h2 : ∀ b ∈ l.map key, b ∉ seen) : dropDupFirstAux key seen l = l := by
  induction l generalizing seen with
  | nil => rfl
  | cons x xs ih =>
    rw [dropDupFirstAux, if_neg (h2 (key x) (by simp))]
    rw [List.map_cons] at h1
    have h1' := List.nodup_cons.mp h1
    congr 1
    refine ih (key x :: seen) h1'.2 ?_
    intro b hb
    intro hmem
    rcases List.mem_cons.mp hmem with rfl | hbs
    · exact h1'.1 hb
    · exact h2 b (List.mem_cons_of_mem _ hb) hbs

/- ------------------------------------------------------------------ -/
/- The deduplication refinement.                                       -/
/- ------------------------------------------------------------------ -/

theorem specDedupWinner_key {k : Nat × Nat} {l : List SRow} {w : SRow}
    (h : specDedupWinner k l = some w) : pairKey w = k := by
  induction l with
  | nil => cases h
  | cons r rs ih =>
    rw [specDedupWinner] at h
    by_cases hr : pairKey r = k
    · rw [if_pos hr] at h
      cases hw : specDedupWinner k rs with
      | none =>
        rw [hw] at h
        have h2 : some r = some w := h
        cases h2
        exact hr
      | some w2 =>
        rw [hw] at h
        have h2 : (if pointsRank r.points < pointsRank w2.points then some w2
            else some r) = some w := h
        by_cases hlt : pointsRank r.points < pointsRank w2.points
        · rw [if_pos hlt] at h2; cases h2; exact ih hw
        · rw [if_neg hlt] at h2; cases h2; exact hr
    · rw [if_neg hr] at h; exact ih h

theorem dedupeSortKey_le_iff (r w : SRow) (h : pairKey r = pairKey w) :
    (dedupeSortKey r ≤ dedupeSortKey w ↔ pointsRank w.points ≤ pointsRank r.points) := by
  have h1 : r.race_id = w.race_id := congrArg Prod.fst h
  have h2 : r.constructor_id = w.constructor_id := congrArg Prod.snd h
  simp [dedupeSortKey, Prod.Lex.le_iff, h1, h2]

theorem find?_sortStable_dedupe (k : Nat × Nat) (rows : List SRow) :
    (sortStable dedupeSortKey rows).find? (fun r => pairKey r = k) =
      specDedupWinner k rows := by
  induction rows with
  | nil => rfl
  | cons x xs ih =>
    rw [sortStable, specDedupWinner]
    by_cases hx : pairKey x = k
    · rw [find?_insertSorted_pos dedupeSortKey _ x _ (sortStable_pairwise _ _)
        (by simp [hx]), ih, if_pos hx]
      cases hw : specDedupWinner k xs with
      | none => rfl
      | some w =>
        have hwk : pairKey w = k := specDedupWinner_key hw
        have hiff := dedupeSortKey_le_iff x w (hx.trans hwk.symm)
        by_cases hlt : pointsRank x.points < pointsRank w.points
        · have hnle : ¬ dedupeSortKey x ≤ dedupeSortKey w := by
            rw [hiff]; exact not_le.mpr hlt
          simp [if_pos hlt, if_neg hnle]
        · have hle : dedupeSortKey x ≤ dedupeSortKey w := hiff.mpr (not_lt.mp hlt)
          simp [if_neg hlt, if_pos hle]
    · rw [find?_insertSorted_neg dedupeSortKey _ x _ (by simp [hx]), ih, if_neg hx]

theorem dedupe_by_pair_fst (rows : List SRow) :
    (dedupe_by_pair rows).1 = dropDupFirst pairKey (sortStable dedupeSortKey rows) := rfl

theorem dedupe_by_pair_snd (rows : List SRow) :
    (dedupe_by_pair rows).2 =
      rows.length - (dropDupFirst pairKey (sortStable dedupeSortKey rows)).length := rfl

/-- Claim C4: the Cleaner's deduplication keeps exactly one record per
(race id, constructor id) key - no key repeats, every kept record comes
from the input, and for each key the kept record (read off through
`find?` on the deduplicated output) is the selection rule of the spec:
highest non-missing points wins, and on ties (including both missing)
the first record in original input order wins - while the reported drop
count plus the kept count gives back the input count. -/
theorem dedupe_by_pair_spec (rows : List SRow) :
    (((dedupe_by_pair rows).1.map pairKey).Nodup)
  ∧ (∀ r ∈ (dedupe_by_pair rows).1, r ∈ rows)
  ∧ (∀ k : Nat × Nat,
      (dedupe_by_pair rows).1.find? (fun r => pairKey r = k) = specDedupWinner k rows)
  ∧ (dedupe_by_pair rows).1.length + (dedupe_by_pair rows).2 = rows.length := by
  have hsub := dropDupFirstAux_sublist pairKey [] (sortStable dedupeSortKey rows)
  refine ⟨?_, ?_, ?_, ?_⟩
  · rw [dedupe_by_pair_fst]
    exact (dropDupFirstAux_keys pairKey [] _).1
  · intro r hr
    rw [dedupe_by_pair_fst] at hr
    exact (mem_sortStable dedupeSortKey rows r).mp (hsub.subset hr)
  · intro k
    rw [dedupe_by_pair_fst, dropDupFirst,
      find?_dropDupFirstAux pairKey k [] _ (List.not_mem_nil k),
      find?_sortStable_dedupe]
  · rw [dedupe_by_pair_fst, dedupe_by_pair_snd]
    refine Nat.add_sub_cancel' ?_
    calc (dropDupFirst pairKey (sortStable dedupeSortKey rows)).length
        ≤ (sortStable dedupeSortKey rows).length := hsub.length_le
      _ = rows.length := length_sortStable dedupeSortKey rows

/-- Claim C4 witness (spec scenario 1): among two rows for one (race,
constructor) key with points 5 and 8 plus a missing-points second key,
the kept record for the duplicated key is the points-8 row and one
dropped duplicate is reported. -/
theorem dedupe_by_pair_spec_w :
    (dedupe_by_pair dupRowsW).1.find? (fun r => pairKey r = (1, 1)) =
      specDedupWinner (1, 1) dupRowsW
  ∧ specDedupWinner (1, 1) dupRowsW = some ⟨1, mMar, mMar, 1, some "A", some 8⟩
  ∧ (dedupe_by_pair dupRowsW).2 = 1 :=
  ⟨(dedupe_by_pair_spec dupRowsW).2.2.1 (1, 1), by decide, by decide⟩

/-- Claim C9: the Cleaner's deduplication is idempotent - applied to its
own output it drops zero rows and returns the record set unchanged. -/
theorem dedupe_by_pair_idempotent (rows : List SRow) :
    dedupe_by_pair ((dedupe_by_pair rows).1) = ((dedupe_by_pair rows).1, 0) := by
  have hsort := sortStable_pairwise dedupeSortKey rows
  have hsub := dropDupFirstAux_sublist pairKey [] (sortStable dedupeSortKey rows)
  have hkPairwise : (dropDupFirst pairKey (sortStable dedupeSortKey rows)).Pairwise
      (fun a b => dedupeSortKey a ≤ dedupeSortKey b) := hsort.sublist hsub
  have hnodup := (dropDupFirstAux_keys pairKey [] (sortStable dedupeSortKey rows)).1
  have h1 : sortStable dedupeSortKey (dropDupFirst pairKey (sortStable dedupeSortKey rows))
      = dropDupFirst pairKey (sortStable dedupeSortKey rows) :=
    sortStable_eq_self _ _ hkPairwise
  have h2 : dropDupFirst pairKey (dropDupFirst pairKey (sortStable dedupeSortKey rows))
      = dropDupFirst pairKey (sortStable dedupeSortKey rows) :=
    dropDupFirstAux_eq_self pairKey [] _ hnodup (by intro b _; exact List.not_mem_nil b)
  rw [dedupe_by_pair_fst]
  show (dropDupFirst pairKey (sortStable dedupeSortKey
          (dropDupFirst pairKey (sortStable dedupeSortKey rows))),
        (dropDupFirst pairKey (sortStable dedupeSortKey rows)).length -
          (dropDupFirst pairKey (sortStable dedupeSortKey
            (dropDupFirst pairKey (sortStable dedupeSortKey rows)))).length) =
      (dropDupFirst pairKey (sortStable dedupeSortKey rows), 0)
  rw [h1, h2, Nat.sub_self]

/- ------------------------------------------------------------------ -/
/- Lemmas about the aggregation query.                                 -/
/- ------------------------------------------------------------------ -/

theorem foldl_add_eq_sum (v : Rat) (vs : List Rat) : vs.foldl (· + ·) v = v + vs.sum := by
  induction vs generalizing v with
  | nil => simp
  | cons w ws ih => rw [List.foldl_cons, ih (v + w), List.sum_cons, add_assoc]

theorem sqlSum_eq_specGroupTotal (xs : List (Option Rat)) :
    sqlSum xs = specGroupTotal xs := by
  rw [sqlSum, specGroupTotal]
  cases hx : xs.filterMap id with
  | nil =>
    have hall := List.filterMap_eq_nil_iff.mp hx
    have hany : xs.any (fun p => p.isSome) = false := by
      rw [List.any_eq_false]
      intro a ha
      rw [show a = none from hall a ha]
      simp
    simp [hany]
  | cons v vs =>
    have hv : v ∈ xs.filterMap id := by rw [hx]; exact List.mem_cons_self v vs
    obtain ⟨a, ha, hav⟩ := List.mem_filterMap.mp hv
    have hany : xs.any (fun p => p.isSome) = true :=
      List.any_eq_true.mpr ⟨a, ha, by rw [show a = some v from hav]; rfl⟩
    simp [hany, hx, foldl_add_eq_sum, List.sum_cons]

theorem lagGo_length (p : Option Rat) (l : List MonthlyRow) :
    (lagGo p l).length = l.length := by
  induction l generalizing p with
  | nil => rfl
  | cons r rs ih => simp [lagGo, ih]

theorem lagGo_get_zero (p : Option Rat) (l : List MonthlyRow) (h : 0 < l.length)
    (h2 : 0 < (lagGo p l).length) :
    (lagGo p l).get ⟨0, h2⟩ = prevOfM (l.get ⟨0, h⟩) p := by
  cases l with
  | nil => exact absurd h (lt_irrefl 0)
  | cons r rs => rfl

theorem lagGo_get_succ (p : Option Rat) (l : List MonthlyRow) (i : Nat)
    (h : i + 1 < l.length) (h2 : i + 1 < (lagGo p l).length) (h3 : i < l.length) :
    (lagGo p l).get ⟨i + 1, h2⟩ =
      prevOfM (l.get ⟨i + 1, h⟩) ((l.get ⟨i, h3⟩).points_m) := by
  induction l generalizing p i with
  | nil => exact absurd h (Nat.not_lt_zero _)
  | cons r rs ih =>
    cases i with
    | zero =>
      cases rs with
      | nil => exact absurd h (by simp)
      | cons r2 rs2 => rfl
    | succ j =>
      have hb1 : j + 1 < rs.length := Nat.lt_of_succ_lt_succ h
      have hb3 : j < rs.length := Nat.lt_of_succ_lt_succ h3
      have hb2 : j + 1 < (lagGo r.points_m rs).length := by
        rw [lagGo_length]; exact hb1
      exact ih r.points_m j hb1 hb2 hb3

theorem lagGo_mem {p : Option Rat} {l : List MonthlyRow} {pr : PrevRow}
    (h : pr ∈ lagGo p l) : ∃ mr ∈ l, ∃ q, pr = prevOfM mr q := by
  induction l generalizing p with
  | nil => cases h
  | cons r rs ih =>
    rcases List.mem_cons.mp h with rfl | h2
    · exact ⟨r, List.mem_cons_self _ _, p, rfl⟩
    · obtain ⟨mr, hmr, q, he⟩ := ih h2
      exact ⟨mr, List.mem_cons_of_mem _ hmr, q, he⟩

theorem mem_lagGo_of_mem {l : List MonthlyRow} {mr : MonthlyRow} (p : Option Rat)
    (h : mr ∈ l) : ∃ q, prevOfM mr q ∈ lagGo p l := by
  induction l generalizing p with
  | nil => cases h
  | cons r rs ih =>
    rcases List.mem_cons.mp h with rfl | h2
    · exact ⟨p, List.mem_cons_self _ _⟩
    · obtain ⟨q, hq⟩ := ih r.points_m h2
      exact ⟨q, List.mem_cons_of_mem _ hq⟩

theorem mem_aggregate {rows : List SilverRow} {g : GoldRow} :
    g ∈ aggregate rows ↔
      ∃ c ∈ aggCids rows, ∃ pr ∈ constructorChain rows c, g = goldOfPrev pr := by
  rw [aggregate, mem_sortStable]
  constructor
  · intro h
    obtain ⟨pr, hpr, he⟩ := List.mem_map.mp h
    obtain ⟨l, hl, hprl⟩ := List.mem_flatten.mp hpr
    obtain ⟨c, hc, hcl⟩ := List.mem_map.mp hl
    exact ⟨c, hc, pr, hcl ▸ hprl, he.symm⟩
  · rintro ⟨c, hc, pr, hpr, rfl⟩
    exact List.mem_map.mpr ⟨pr,
      List.mem_flatten.mpr ⟨constructorChain rows c,
        List.mem_map.mpr ⟨c, hc, rfl⟩, hpr⟩, rfl⟩

theorem constructorChain_mem_parts {rows : List SilverRow} {c : Nat} {pr : PrevRow}
    (h : pr ∈ constructorChain rows c) :
    ∃ mr ∈ monthly rows, mr.constructor_id = c ∧ ∃ q, pr = prevOfM mr q := by
  obtain ⟨mr, hmr, q, he⟩ := lagGo_mem h
  rw [constructorSeq, mem_sortStable] at hmr
  obtain ⟨hm, hc⟩ := List.mem_filter.mp hmr
  exact ⟨mr, hm, by simpa using hc, q, he⟩

theorem mem_aggregate_of_chain {rows : List SilverRow} {c : Nat} {pr : PrevRow}
    (h : pr ∈ constructorChain rows c) : goldOfPrev pr ∈ aggregate rows := by
  obtain ⟨mr, hmr, hcid, q, he⟩ := constructorChain_mem_parts h
  have hcc : c ∈ aggCids rows := by
    rw [aggCids, List.mem_dedup]
    exact List.mem_map.mpr ⟨mr, hmr, hcid⟩
  exact mem_aggregate.mpr ⟨c, hcc, pr, h, rfl⟩

/- ------------------------------------------------------------------ -/
/- Claim C1: aggregation totals.                                       -/
/- ------------------------------------------------------------------ -/

/-- Claim C1 counterexample: a (constructor id, month) group whose
points are all missing yields a NULL `points_total` in the aggregate
output, not 0 as the claim states. -/
theorem aggregate_points_total_cex :
    ∃ g ∈ aggregate rowsAllMissing,
      g.constructor_id = 1 ∧ g.m = mMar ∧ g.points_m = none ∧ g.points_m ≠ some 0 := by
  decide

/-- Claim C1 (amended): for every (constructor id, display name, month)
group of the cleaned input, the aggregate output holds a row of that key,
and every aggregate row of that key carries `points_total` equal to the
sum of the group's non-missing points when at least one is present, and
NULL (not 0) when all are missing. -/
theorem aggregate_points_total (rows : List SilverRow) (c : Nat) (n : Option String)
    (mo : DateTime) (hk : (c, n, mo) ∈ rows.map key3) :
    (∃ g ∈ aggregate rows,
      g.constructor_id = c ∧ g.constructor_name = n ∧ g.m = mo)
  ∧ (∀ g ∈ aggregate rows,
      g.constructor_id = c → g.constructor_name = n → g.m = mo →
        g.points_m = specGroupTotal (groupPoints rows (c, n, mo))) := by
  constructor
  · have hk2 : (c, n, mo) ∈ (rows.map key3).dedup := List.mem_dedup.mpr hk
    have hm : monthlyOf rows (c, n, mo) ∈ monthly rows :=
      List.mem_map.mpr ⟨(c, n, mo), hk2, rfl⟩
    have hf : monthlyOf rows (c, n, mo) ∈
        (monthly rows).filter fun r => r.constructor_id = c :=
      List.mem_filter.mpr ⟨hm, by simp [monthlyOf]⟩
    have hs : monthlyOf rows (c, n, mo) ∈ constructorSeq rows c := by
      rw [constructorSeq, mem_sortStable]; exact hf
    obtain ⟨q, hq⟩ := mem_lagGo_of_mem none hs
    refine ⟨goldOfPrev (prevOfM (monthlyOf rows (c, n, mo)) q),
      mem_aggregate_of_chain hq, rfl, rfl, rfl⟩
  · intro g hg hc hn hm
    obtain ⟨c2, hc2, pr, hpr, rfl⟩ := mem_aggregate.mp hg
    obtain ⟨mr, hmr, hcid, q, rfl⟩ := constructorChain_mem_parts hpr
    obtain ⟨k2, hk2, he2⟩ := List.mem_map.mp hmr
    have hkk : k2 = (c, n, mo) := by
      have e1 : k2.1 = c := by rw [← hc, ← he2]; rfl
      have e2 : k2.2.1 = n := by rw [← hn, ← he2]; rfl
      have e3 : k2.2.2 = mo := by rw [← hm, ← he2]; rfl
      calc k2 = (k2.1, k2.2.1, k2.2.2) := rfl
        _ = (c, n, mo) := by rw [e1, e2, e3]
    have : (goldOfPrev (prevOfM mr q)).points_m = mr.points_m := rfl
    rw [this, ← he2, hkk]
    exact sqlSum_eq_specGroupTotal _

/-- Claim C1 witness: in a March group holding points 8 and a missing
cell, the aggregate row exists and its total is the sum of the
non-missing points. -/
theorem aggregate_points_total_w :
    ((1, some "A", mMar) ∈ rowsSumW.map key3)
  ∧ ((∃ g ∈ aggregate rowsSumW,
        g.constructor_id = 1 ∧ g.constructor_name = some "A" ∧ g.m = mMar)
    ∧ (∀ g ∈ aggregate rowsSumW,
        g.constructor_id = 1 → g.constructor_name = some "A" → g.m = mMar →
          g.points_m = specGroupTotal (groupPoints rowsSumW (1, some "A", mMar)))) :=
  ⟨by decide, aggregate_points_total rowsSumW 1 (some "A") mMar (by decide)⟩

/- ------------------------------------------------------------------ -/
/- Claim C3: key uniqueness of the aggregate output.                   -/
/- ------------------------------------------------------------------ -/

/-- Claim C3 at the failing input: the query groups by the display name
as well, so a constructor id carrying two names within one month yields
two aggregate rows, while only one distinct (constructor id, month) pair
exists - the claimed row-count equality and key uniqueness fail. -/
theorem aggregate_key_collision :
    (aggregate rowsTwoNames).length = 2
  ∧ (((aggregate rowsTwoNames).map fun g => (g.constructor_id, g.m)).dedup).length = 1
  ∧ ∃ g1 ∈ aggregate rowsTwoNames, ∃ g2 ∈ aggregate rowsTwoNames,
      g1.constructor_name ≠ g2.constructor_name ∧
      g1.constructor_id = g2.constructor_id ∧ g1.m = g2.m := by
  refine ⟨by decide, by decide, ?_⟩
  exact ⟨(aggregate rowsTwoNames).get ⟨0, by decide⟩, List.get_mem _ _ _,
    (aggregate rowsTwoNames).get ⟨1, by decide⟩, List.get_mem _ _ _,
    by decide, by decide, by decide⟩

/- ------------------------------------------------------------------ -/
/- Claim C5: the prior-period lookup.                                  -/
/- ------------------------------------------------------------------ -/

theorem DateTime_key_inj {a b : DateTime} (h : DateTime.key a = DateTime.key b) :
    a = b := by
  cases a with | mk ya ma da za =>
  cases b with | mk yb mb db zb =>
  simp only [DateTime.key, toLex_inj, Prod.mk.injEq] at h
  obtain ⟨h1, h2, h3, h4⟩ := h
  subst h1; subst h2; subst h3
  cases za <;> cases zb <;> simp_all

theorem constructorSeq_cid {rows : List SilverRow} {c : Nat} {mr : MonthlyRow}
    (h : mr ∈ constructorSeq rows c) :
    mr.constructor_id = c ∧ mr ∈ monthly rows := by
  rw [constructorSeq, mem_sortStable] at h
  obtain ⟨hm, hc⟩ := List.mem_filter.mp h
  exact ⟨by simpa using hc, hm⟩

theorem mem_constructorSeq {rows : List SilverRow} {c : Nat} {mr : MonthlyRow}
    (hm : mr ∈ monthly rows) (hc : mr.constructor_id = c) :
    mr ∈ constructorSeq rows c := by
  rw [constructorSeq, mem_sortStable]
  exact List.mem_filter.mpr ⟨hm, by simp [hc]⟩

theorem constructorSeq_mono (rows : List SilverRow) (c : Nat) (i j : Nat)
    (hi : i < (constructorSeq rows c).length)
    (hj : j < (constructorSeq rows c).length) (hij : i ≤ j) :
    monKey ((constructorSeq rows c).get ⟨i, hi⟩) ≤
      monKey ((constructorSeq rows c).get ⟨j, hj⟩) := by
  rcases Nat.lt_or_ge i j with hlt | hge
  · exact List.pairwise_iff_get.mp (sortStable_pairwise monKey _) ⟨i, hi⟩ ⟨j, hj⟩ hlt
  · have : i = j := le_antisymm hij hge
    subst this
    exact le_rfl

/-- Claim C5: for each constructor, the window orders that constructor's
monthly rows by month ascending, `prev_points_total` of a row is the
`points_total` of the immediately preceding row of that ordered sequence
(NULL in front of the first row), every such row reaches the aggregate
output, no present month of the constructor lies strictly between a row
and its successor - so the previous row is the chronologically previous
present month even across gap months, never a substituted zero - and,
when (constructor, month) keys are unique, consecutive months are
strictly increasing. -/
theorem prev_points_lookup (rows : List SilverRow) (c : Nat) :
    ((constructorChain rows c).length = (constructorSeq rows c).length)
  ∧ (∀ h2 : 0 < (constructorChain rows c).length,
      ∀ h : 0 < (constructorSeq rows c).length,
      (constructorChain rows c).get ⟨0, h2⟩ =
        prevOfM ((constructorSeq rows c).get ⟨0, h⟩) none)
  ∧ (∀ i (h : i + 1 < (constructorSeq rows c).length)
      (h2 : i + 1 < (constructorChain rows c).length)
      (h3 : i < (constructorSeq rows c).length),
      (constructorChain rows c).get ⟨i + 1, h2⟩ =
        prevOfM ((constructorSeq rows c).get ⟨i + 1, h⟩)
          (((constructorSeq rows c).get ⟨i, h3⟩).points_m))
  ∧ (∀ pr ∈ constructorChain rows c, goldOfPrev pr ∈ aggregate rows)
  ∧ (∀ i j (hi : i < (constructorSeq rows c).length)
      (hj : j < (constructorSeq rows c).length), i ≤ j →
      monKey ((constructorSeq rows c).get ⟨i, hi⟩) ≤
        monKey ((constructorSeq rows c).get ⟨j, hj⟩))
  ∧ (∀ i (h : i + 1 < (constructorSeq rows c).length)
      (h3 : i < (constructorSeq rows c).length),
      ∀ mr ∈ monthly rows, mr.constructor_id = c →
        ¬(monKey ((constructorSeq rows c).get ⟨i, h3⟩) < monKey mr ∧
          monKey mr < monKey ((constructorSeq rows c).get ⟨i + 1, h⟩)))
  ∧ (monthlyKeysUnique rows →
      ∀ i (h : i + 1 < (constructorSeq rows c).length)
        (h3 : i < (constructorSeq rows c).length),
      monKey ((constructorSeq rows c).get ⟨i, h3⟩) <
        monKey ((constructorSeq rows c).get ⟨i + 1, h⟩)) := by
  refine ⟨lagGo_length none _, ?_, ?_, ?_, constructorSeq_mono rows c, ?_, ?_⟩
  · intro h2 h
    exact lagGo_get_zero none _ h h2
  · intro i h h2 h3
    exact lagGo_get_succ none _ i h h2 h3
  · intro pr hpr
    exact mem_aggregate_of_chain hpr
  · intro i h h3 mr hm hc hbet
    obtain ⟨hlo, hhi⟩ := hbet
    have hseq : mr ∈ constructorSeq rows c := mem_constructorSeq hm hc
    obtain ⟨⟨j, hj⟩, hget⟩ := List.mem_iff_get.mp hseq
    rcases le_or_lt j i with hji | hji
    · have := constructorSeq_mono rows c j i hj h3 hji
      rw [hget] at this
      exact absurd hlo (not_lt.mpr this)
    · have := constructorSeq_mono rows c (i + 1) j h hj hji
      rw [hget] at this
      exact absurd hhi (not_lt.mpr this)
  · intro hu i h h3
    have hle := constructorSeq_mono rows c i (i + 1) h3 h (Nat.le_succ i)
    rcases lt_or_eq_of_le hle with hlt | heq
    · exact hlt
    · exfalso
      have hfilter : List.Sublist
          ((monthly rows).filter fun r => r.constructor_id = c) (monthly rows) :=
        List.filter_sublist _
      have hnodupf : (((monthly rows).filter fun r => r.constructor_id = c).map
          fun r => (r.constructor_id, r.m)).Nodup :=
        List.Nodup.sublist (hfilter.map _) hu
      have hperm : (constructorSeq rows c).Perm
          ((monthly rows).filter fun r => r.constructor_id = c) :=
        sortStable_perm monKey _
      have hnodup : ((constructorSeq rows c).map
          fun r => (r.constructor_id, r.m)).Nodup :=
        ((hperm.map _).nodup_iff).mpr hnodupf
      have hmeq : ((constructorSeq rows c).get ⟨i, h3⟩).m =
          ((constructorSeq rows c).get ⟨i + 1, h⟩).m :=
        DateTime_key_inj heq
      have hcid1 := (constructorSeq_cid (List.get_mem (constructorSeq rows c) i h3)).1
      have hcid2 := (constructorSeq_cid (List.get_mem (constructorSeq rows c) (i + 1) h)).1
      have hpair : ((constructorSeq rows c).map fun r => (r.constructor_id, r.m)).get
            ⟨i, by simpa using h3⟩ =
          ((constructorSeq rows c).map fun r => (r.constructor_id, r.m)).get
            ⟨i + 1, by simpa using h⟩ := by
        rw [List.get_map, List.get_map]
        rw [hcid1, hcid2, hmeq]
      have := (List.Nodup.get_inj_iff hnodup).mp hpair
      simp at this

/-- Claim C5 witness (gap scenario): with a March aggregate of 8, no
April aggregate and a May aggregate of 10, the May row's LAG value is
the March total 8, not a synthetic zero for the skipped April. -/
theorem prev_points_lookup_w :
    ((constructorChain rowsGapW 1).get ⟨1, by decide⟩).prev_points_m = some 8
  ∧ ((constructorSeq rowsGapW 1).get ⟨0, by decide⟩).m = mMar
  ∧ ((constructorSeq rowsGapW 1).get ⟨1, by decide⟩).m = mMay := by
  have h := (prev_points_lookup rowsGapW 1).2.2.1 0 (by decide) (by decide) (by decide)
  have h2 : ((constructorChain rowsGapW 1).get ⟨1, by decide⟩).prev_points_m =
      ((constructorSeq rowsGapW 1).get ⟨0, by decide⟩).points_m := by
    rw [show ((constructorChain rowsGapW 1).get ⟨1, by decide⟩) =
      prevOfM ((constructorSeq rowsGapW 1).get ⟨1, by decide⟩)
        (((constructorSeq rowsGapW 1).get ⟨0, by decide⟩).points_m) from h]
    rfl
  refine ⟨?_, by decide, by decide⟩
  rw [h2]
  decide

/- ------------------------------------------------------------------ -/
/- Claim C2: the growth null rule.                                     -/
/- ------------------------------------------------------------------ -/

theorem momGrowth_eq_none_iff (p prev : Option Rat) :
    momGrowth p prev = none ↔ prev = none ∨ prev = some 0 ∨ p = none := by
  cases prev with
  | none => simp [momGrowth]
  | some pv =>
    by_cases hz : pv = 0
    · subst hz; simp [momGrowth]
    · cases p with
      | none => simp [momGrowth, hz]
      | some cv => simp [momGrowth, hz]

theorem momGrowth_eq_some (p prev : Option Rat) (q : Rat)
    (h : momGrowth p prev = some q) :
    ∃ pv cv, prev = some pv ∧ pv ≠ 0 ∧ p = some cv ∧ q = (cv - pv) / pv := by
  cases prev with
  | none => exact absurd h (by simp [momGrowth])
  | some pv =>
    by_cases hz : pv = 0
    · subst hz; exact absurd h (by simp [momGrowth])
    · cases p with
      | none => exact absurd h (by simp [momGrowth, hz])
      | some cv =>
        refine ⟨pv, cv, rfl, hz, rfl, ?_⟩
        have h2 : momGrowth (some cv) (some pv) = some ((cv - pv) / pv) := by
          simp [momGrowth, hz]
        rw [h2] at h
        exact (Option.some_inj.mp h).symm

/-- Claim C2 counterexample: the later row's growth is NULL although the
constructor has a chronologically prior aggregate row whose points_total
is not 0 (it is NULL - the prior month's points are all missing), so the
claimed "null iff no prior aggregate or prior total is 0" fails on the
code. -/
theorem growth_ratio_null_iff_cex :
    ∃ g1 ∈ aggregate rowsNullPrev, ∃ g2 ∈ aggregate rowsNullPrev,
      g1.constructor_id = g2.constructor_id ∧
      DateTime.key g1.m < DateTime.key g2.m ∧
      g1.points_m ≠ some 0 ∧ g2.points_m = some 5 ∧ g2.mom_growth = none := by
  decide

/-- Claim C2 (amended): a row's growth ratio is NULL exactly when its
LAG value is NULL (no prior aggregate row in the window, or the prior
row's points_total is itself NULL) or that value is 0 or the row's own
points_total is NULL; otherwise it equals (points_total - prev)/prev
with a nonzero divisor, so the query never divides by zero and never
substitutes zero for a missing baseline.  The LAG value is NULL on the
first row of the window and the prior row's total afterwards, and each
such row reaches the aggregate output. -/
theorem growth_ratio_null_iff (rows : List SilverRow) (c i : Nat)
    (hi : i < (constructorChain rows c).length) :
    (goldOfPrev ((constructorChain rows c).get ⟨i, hi⟩) ∈ aggregate rows)
  ∧ ((goldOfPrev ((constructorChain rows c).get ⟨i, hi⟩)).mom_growth = none ↔
      ((constructorChain rows c).get ⟨i, hi⟩).prev_points_m = none ∨
      ((constructorChain rows c).get ⟨i, hi⟩).prev_points_m = some 0 ∨
      ((constructorChain rows c).get ⟨i, hi⟩).points_m = none)
  ∧ (i = 0 → ((constructorChain rows c).get ⟨i, hi⟩).prev_points_m = none)
  ∧ (∀ j, i = j + 1 → ∀ h3 : j < (constructorSeq rows c).length,
      ((constructorChain rows c).get ⟨i, hi⟩).prev_points_m =
        ((constructorSeq rows c).get ⟨j, h3⟩).points_m)
  ∧ (∀ q, (goldOfPrev ((constructorChain rows c).get ⟨i, hi⟩)).mom_growth = some q →
      ∃ pv cv, ((constructorChain rows c).get ⟨i, hi⟩).prev_points_m = some pv ∧
        pv ≠ 0 ∧ ((constructorChain rows c).get ⟨i, hi⟩).points_m = some cv ∧
        q = (cv - pv) / pv) := by
  refine ⟨mem_aggregate_of_chain (List.get_mem _ _ _), ?_, ?_, ?_, ?_⟩
  · exact momGrowth_eq_none_iff _ _
  · intro hz
    subst hz
    have hs : 0 < (constructorSeq rows c).length := by
      rw [← lagGo_length none (constructorSeq rows c)]
      exact hi
    rw [show (constructorChain rows c).get ⟨0, hi⟩ =
      prevOfM ((constructorSeq rows c).get ⟨0, hs⟩) none
      from lagGo_get_zero none _ hs hi]
    rfl
  · intro j hj h3
    subst hj
    have hs : j + 1 < (constructorSeq rows c).length := by
      rw [← lagGo_length none (constructorSeq rows c)]
      exact hi
    rw [show (constructorChain rows c).get ⟨j + 1, hi⟩ =
      prevOfM ((constructorSeq rows c).get ⟨j + 1, hs⟩)
        (((constructorSeq rows c).get ⟨j, h3⟩).points_m)
      from lagGo_get_succ none _ j hs hi h3]
    rfl
  · intro q hq
    exact momGrowth_eq_some _ _ q hq

/-- Claim C2 witness: with March total 8 and May total 10 both present,
the May row's growth is non-null and its LAG value is the prior total 8. -/
theorem growth_ratio_null_iff_w :
    ((goldOfPrev ((constructorChain rowsGrowthW 1).get ⟨1, by decide⟩)).mom_growth ≠ none)
  ∧ ((constructorChain rowsGrowthW 1).get ⟨1, by decide⟩).prev_points_m = some 8 := by
  have h := growth_ratio_null_iff rowsGrowthW 1 1 (by decide)
  refine ⟨?_, by decide⟩
  intro hnone
  rcases h.2.1.mp hnone with h1 | h1 | h1 <;> revert h1 <;> decide

/- ------------------------------------------------------------------ -/
/- Lemmas about the bronze-layer stages.                               -/
/- ------------------------------------------------------------------ -/

theorem deriveRowM_spec (r : BRow) (hr : rdIsDt r = true) :
    ∃ d, r.race_date = DVal.dt d ∧
      deriveRowM r = { r with mval := MV.mdt (monthStart d) } ∧
      mDay1 (deriveRowM r) = true ∧ mIsDt (deriveRowM r) = true := by
  cases hd : r.race_date with
  | dt d => exact ⟨d, rfl, by simp [deriveRowM, hd], by simp [deriveRowM, hd, mDay1, monthStart],
      by simp [deriveRowM, hd, mIsDt]⟩
  | dstr d => rw [rdIsDt, hd] at hr; cases hr
  | dbad => rw [rdIsDt, hd] at hr; cases hr

theorem deriveMRows_of_dt (rows : List BRow) (h : rows.all rdIsDt = true) :
    deriveMRows rows = .ok (rows.map deriveRowM) := by
  induction rows with
  | nil => rfl
  | cons r rs ih =>
    rw [List.all_cons, Bool.and_eq_true] at h
    obtain ⟨hr, hrs⟩ := h
    obtain ⟨d, hd, hrow, _, _⟩ := deriveRowM_spec r hr
    rw [deriveMRows]
    rw [hd, ih hrs, List.map_cons, hrow, hd]

theorem parseMVRows_ok {rows out : List BRow} (h : parseMVRows rows = .ok out) :
    out = rows.map parseMRowOk ∧ ∀ r ∈ rows, ∃ d, parseMV r.mval = some d := by
  induction rows generalizing out with
  | nil =>
    have h2 : Except.ok ([] : List BRow) = Except.ok out := h
    cases h2
    exact ⟨rfl, by intro r hr; cases hr⟩
  | cons r rs ih =>
    rw [parseMVRows] at h
    cases hp : parseMV r.mval with
    | none => rw [hp] at h; exact Except.noConfusion h
    | some d =>
      rw [hp] at h
      cases hrest : parseMVRows rs with
      | error e => rw [hrest] at h; exact Except.noConfusion h
      | ok rest =>
        rw [hrest] at h
        have h2 : Except.ok ({ r with mval := MV.mdt d } :: rest) = Except.ok out := h
        obtain ⟨ho1, ho2⟩ := ih hrest
        cases h2
        constructor
        · rw [List.map_cons, parseMRowOk, hp, ho1]
        · intro r2 hr2
          rcases List.mem_cons.mp hr2 with rfl | hr3
          · exact ⟨d, hp⟩
          · exact ho2 r2 hr3

theorem ensure_month_ok {df out : BDf} (h : ensure_month df = Except.ok out) :
    (out.rows.all mIsDt = true ∧ out.rows.all mDay1 = true)
  ∧ (Col.m ∈ df.cols → out.cols = df.cols ∧ out.rows = df.rows.map parseMRowOk ∧
      ∀ r ∈ df.rows, ∃ d, parseMV r.mval = some d)
  ∧ (Col.m ∉ df.cols → out.cols = df.cols ++ [Col.m]) := by
  rw [ensure_month] at h
  split at h
  · exact Except.noConfusion h
  · rename_i rows1 hb
    rw [monthChecked] at h
    split at h
    · rename_i hg
      cases h
      rw [Bool.and_eq_true] at hg
      refine ⟨⟨hg.1, hg.2⟩, ?_, ?_⟩
      · intro hm
        rw [if_pos hm] at hb
        obtain ⟨ho1, ho2⟩ := parseMVRows_ok hb
        exact ⟨by simp [hm], by simp [ho1], ho2⟩
      · intro hm
        simp [hm]
    · exact Except.noConfusion h

theorem ensure_race_date_of_clean (df : BDf) (hdt : df.rows.all rdIsDt = true)
    (htz : df.rows.any rdHasTz = false) : ensure_race_date df = Except.ok df := by
  rw [ensure_race_date, if_pos hdt]
  show (Except.ok (BDf.mk df.cols
      (if df.rows.any rdHasTz = true then df.rows.map stripRowTz else df.rows)) :
    Except CErr BDf) = Except.ok df
  rw [htz]
  rfl

/- ------------------------------------------------------------------ -/
/- Claim C8: the first-of-month invariant.                             -/
/- ------------------------------------------------------------------ -/

/-- Claim C8: after each stage that produces or touches the month column
- `add_month_col`, `save_partitioned` and the Cleaner's `_ensure_month` -
every output row's m cell is a valid datetime whose day component is 1. -/
theorem month_first_day_invariant :
    (∀ df out, add_month_col df = Except.ok out →
      ∀ r ∈ out.rows, mDay1 r = true ∧ mIsDt r = true)
  ∧ (∀ df parts, save_partitioned df = Except.ok parts →
      ∀ pt ∈ parts, ∀ r ∈ pt.2, mDay1 r = true ∧ mIsDt r = true)
  ∧ (∀ df out, ensure_month df = Except.ok out →
      ∀ r ∈ out.rows, mDay1 r = true ∧ mIsDt r = true) := by
  refine ⟨?_, ?_, ?_⟩
  · intro df out h
    rw [add_month_col] at h
    split at h
    · exact Except.noConfusion h
    · rename_i rows1 hb1
      rw [addMonthDerive] at h
      split at h
      · exact Except.noConfusion h
      · rename_i rows3 hb2
        rw [monthChecked] at h
        split at h
        · rename_i hg
          cases h
          rw [Bool.and_eq_true] at hg
          intro r hr
          exact ⟨List.all_eq_true.mp hg.2 r hr, List.all_eq_true.mp hg.1 r hr⟩
        · exact Except.noConfusion h
  · intro df parts h
    rw [save_partitioned] at h
    split at h
    · split at h
      · split at h
        · rename_i h1 h2 h3
          split at h
          · cases h
            intro pt hpt r hr
            obtain ⟨d, hd, hde⟩ := List.mem_map.mp hpt
            have hrr : r ∈ df.rows := by
              have hmem : r ∈ df.rows.filter fun r => decide (mvalDate r = some d) := by
                rw [show pt.2 = df.rows.filter (fun r => decide (mvalDate r = some d))
                  from by rw [← hde]] at hr
                exact hr
              exact (List.mem_filter.mp hmem).1
            exact ⟨List.all_eq_true.mp h3 r hrr, List.all_eq_true.mp h2 r hrr⟩
          · exact Except.noConfusion h
        · exact Except.noConfusion h
      · exact Except.noConfusion h
    · exact Except.noConfusion h
  · intro df out h
    have hver := (ensure_month_ok h).1
    intro r hr
    exact ⟨List.all_eq_true.mp hver.2 r hr, List.all_eq_true.mp hver.1 r hr⟩

theorem deriveRowM_guard (rows : List BRow) (hdt : rows.all rdIsDt = true) :
    ((rows.map deriveRowM).all mIsDt && (rows.map deriveRowM).all mDay1) = true := by
  rw [Bool.and_eq_true]
  constructor
  · rw [List.all_eq_true]
    intro r hr
    obtain ⟨r0, hr0, rfl⟩ := List.mem_map.mp hr
    obtain ⟨d, _, _, _, hisdt⟩ := deriveRowM_spec r0 (List.all_eq_true.mp hdt r0 hr0)
    exact hisdt
  · rw [List.all_eq_true]
    intro r hr
    obtain ⟨r0, hr0, rfl⟩ := List.mem_map.mp hr
    obtain ⟨d, _, _, hday, _⟩ := deriveRowM_spec r0 (List.all_eq_true.mp hdt r0 hr0)
    exact hday

theorem ensure_month_derive (df : BDf) (hm : Col.m ∉ df.cols)
    (hdt : df.rows.all rdIsDt = true) :
    ensure_month df = Except.ok ⟨df.cols ++ [Col.m], df.rows.map deriveRowM⟩ := by
  have e1 : (if Col.m ∈ df.cols then parseMVRows df.rows else deriveMRows df.rows) =
      deriveMRows df.rows := if_neg hm
  have e2 : ensure_month df = monthChecked df (df.rows.map deriveRowM) := by
    rw [ensure_month, e1, deriveMRows_of_dt _ hdt]
  rw [e2, monthChecked, if_pos (deriveRowM_guard df.rows hdt), if_neg hm]

theorem add_month_col_of_clean (df : BDf) (hdt : df.rows.all rdIsDt = true)
    (htz : df.rows.any rdHasTz = false) :
    add_month_col df = Except.ok
      ⟨if Col.m ∈ df.cols then df.cols else df.cols ++ [Col.m],
        df.rows.map deriveRowM⟩ := by
  have e1 : add_month_col df = addMonthDerive df df.rows := by
    rw [add_month_col, if_pos hdt]
  have e2 : (if df.rows.any rdHasTz = true then df.rows.map stripRowTz else df.rows) =
      df.rows := by
    rw [htz]
    exact if_neg (by simp)
  have e3 : addMonthDerive df df.rows = monthChecked df (df.rows.map deriveRowM) := by
    rw [addMonthDerive, e2, deriveMRows_of_dt _ hdt]
  rw [e1, e3, monthChecked, if_pos (deriveRowM_guard df.rows hdt)]

/-- Claim C8 witness: on a concrete frame the month stage succeeds and
the invariant read off through the theorem holds for its rows. -/
theorem month_first_day_invariant_w :
    add_month_col dfNoM = Except.ok ⟨requiredCols ++ [Col.m], dfNoM.rows.map deriveRowM⟩
  ∧ (∀ r ∈ (BDf.mk (requiredCols ++ [Col.m]) (dfNoM.rows.map deriveRowM)).rows,
      mDay1 r = true ∧ mIsDt r = true) := by
  have he : add_month_col dfNoM =
      Except.ok ⟨requiredCols ++ [Col.m], dfNoM.rows.map deriveRowM⟩ := by rfl
  exact ⟨he, month_first_day_invariant.1 dfNoM _ he⟩

/- ------------------------------------------------------------------ -/
/- Claim C10: the Cleaner accepts input without the month column.      -/
/- ------------------------------------------------------------------ -/

/-- Claim C10: the Cleaner's schema check requires only the five raw
columns - `m` is not among them - and when the m column is absent the
front of the Cleaner succeeds and derives `m` from race_date as the
first day of the containing month instead of failing, while a present m
column is re-parsed as a datetime. -/
theorem cleaner_accepts_missing_month (df : BDf)
    (hm : Col.m ∉ df.cols) (hreq : ∀ c ∈ requiredCols, c ∈ df.cols)
    (hdt : df.rows.all rdIsDt = true) (htz : df.rows.any rdHasTz = false) :
    (Col.m ∉ requiredCols)
  ∧ expect_columns df = Except.ok ()
  ∧ clean_front df = Except.ok ⟨df.cols ++ [Col.m], df.rows.map deriveRowM⟩
  ∧ (∀ r ∈ df.rows, ∃ d, r.race_date = DVal.dt d ∧
      (deriveRowM r).mval = MV.mdt (monthStart d) ∧ (monthStart d).day = 1)
  ∧ (∀ df2 out2, Col.m ∈ df2.cols → ensure_month df2 = Except.ok out2 →
      out2.rows = df2.rows.map parseMRowOk ∧
      ∀ r ∈ df2.rows, ∃ d, parseMV r.mval = some d) := by
  have he : expect_columns df = Except.ok () := by
    rw [expect_columns,
      if_pos (List.all_eq_true.mpr fun c hc => decide_eq_true (hreq c hc))]
  refine ⟨by decide, he, ?_, ?_, ?_⟩
  · rw [clean_front, he, ensure_race_date_of_clean df hdt htz]
    exact ensure_month_derive df hm hdt
  · intro r hr
    obtain ⟨d, hd, hrow, _, _⟩ := deriveRowM_spec r (List.all_eq_true.mp hdt r hr)
    exact ⟨d, hd, by rw [hrow], rfl⟩
  · intro df2 out2 hm2 h2
    obtain ⟨_, hmem, _⟩ := ensure_month_ok h2
    obtain ⟨_, ho2, ho3⟩ := hmem hm2
    exact ⟨ho2, ho3⟩

/-- Claim C10 witness: a concrete frame without the m column passes the
schema check and flows through the Cleaner's front with the derived
first-of-month value. -/
theorem cleaner_accepts_missing_month_w :
    clean_front dfNoM = Except.ok ⟨requiredCols ++ [Col.m], dfNoM.rows.map deriveRowM⟩
  ∧ (deriveRowM bRowW).mval = MV.mdt mMar := by
  have h := cleaner_accepts_missing_month dfNoM (by decide) (by decide)
    (by decide) (by decide)
  exact ⟨h.2.2.1, by decide⟩

/- ------------------------------------------------------------------ -/
/- Claim C6: mutation of the Month Deriver's argument.                 -/
/- ------------------------------------------------------------------ -/

/-- Claim C6 counterexample: `add_month_col` assigns the new column into
its argument frame, so after a successful call the argument - whose
post-state is the returned frame - is no longer equal to the input; in
particular its column list changed.  The claimed non-mutation fails on
the code. -/
theorem add_month_col_mutates_cex :
    add_month_col_argAfter dfNoM ≠ dfNoM ∧
    (add_month_col_argAfter dfNoM).cols ≠ dfNoM.cols := by
  decide

/-- Claim C6 (amended): `add_month_col` mutates its argument in place -
on success the argument's post-state is the returned frame rather than
the unchanged input - and that frame differs from the input only by the
month column: with race_date already parsed and timezone-naive, every
other field of every row is preserved and the column list only gains
`m`. -/
theorem add_month_col_mutates_only_month (df out : BDf)
    (hdt : df.rows.all rdIsDt = true) (htz : df.rows.any rdHasTz = false)
    (h : add_month_col df = Except.ok out) :
    add_month_col_argAfter df = out
  ∧ out.cols = (if Col.m ∈ df.cols then df.cols else df.cols ++ [Col.m])
  ∧ out.rows = df.rows.map deriveRowM
  ∧ (∀ r ∈ df.rows, ∃ d, r.race_date = DVal.dt d ∧
      deriveRowM r = { r with mval := MV.mdt (monthStart d) }) := by
  have hcomp := add_month_col_of_clean df hdt htz
  have hout : out = ⟨if Col.m ∈ df.cols then df.cols else df.cols ++ [Col.m],
      df.rows.map deriveRowM⟩ := by
    have h2 := hcomp.symm.trans h
    exact (Except.ok.inj h2).symm
  constructor
  · rw [add_month_col_argAfter, h]
  refine ⟨by rw [hout], by rw [hout], ?_⟩
  intro r hr
  obtain ⟨d, hd, hrow, _, _⟩ := deriveRowM_spec r (List.all_eq_true.mp hdt r hr)
  exact ⟨d, hd, hrow⟩

/-- Claim C6 witness: on a concrete clean frame the function succeeds,
the argument's post-state is the returned frame, and only the month
column was added. -/
theorem add_month_col_mutates_only_month_w :
    add_month_col dfNoM = Except.ok ⟨requiredCols ++ [Col.m], dfNoM.rows.map deriveRowM⟩
  ∧ add_month_col_argAfter dfNoM =
      ⟨requiredCols ++ [Col.m], dfNoM.rows.map deriveRowM⟩ := by
  have he : add_month_col dfNoM =
      Except.ok ⟨requiredCols ++ [Col.m], dfNoM.rows.map deriveRowM⟩ := by rfl
  exact ⟨he,
    (add_month_col_mutates_only_month dfNoM _ (by decide) (by decide) he).1⟩

/- ------------------------------------------------------------------ -/
/- Claim C7: value sanitization.                                       -/
/- ------------------------------------------------------------------ -/

theorem maskNeg_coerceRow (r : CVRow) :
    maskNeg (coerceRow r) =
      ⟨r.race_id, r.race_date, r.m, r.constructor_id, r.constructor_name,
        sanitizePoints r.points⟩ := by
  rw [maskNeg, coerceRow, sanitizePoints]
  cases hc : toNumericCoerce r.points with
  | none => simp [isNegB]
  | some q =>
    by_cases hq : q < 0
    · simp [isNegB, hq]
    · simp [isNegB, hq]

theorem maskNeg_of_not_neg {r : CVRowN} (h : isNegB r.points = false) :
    maskNeg r = r := by
  rw [maskNeg, h]
  rfl

theorem clean_values_fst_get (rows : List CVRow) (i : Nat)
    (h1 : i < (clean_values rows).1.length) (h2 : i < rows.length) :
    (clean_values rows).1.get ⟨i, h1⟩ = maskNeg (coerceRow (rows.get ⟨i, h2⟩)) := by
  by_cases hneg : (rows.map coerceRow).countP (fun r => isNegB r.points) > 0
  · have he : (clean_values rows).1 = (rows.map coerceRow).map maskNeg := by
      show (if (rows.map coerceRow).countP (fun r => isNegB r.points) > 0
          then (rows.map coerceRow).map maskNeg else rows.map coerceRow) = _
      rw [if_pos hneg]
    rw [List.get_of_eq he, List.get_map, List.get_map]
  · have he : (clean_values rows).1 = rows.map coerceRow := by
      show (if (rows.map coerceRow).countP (fun r => isNegB r.points) > 0
          then (rows.map coerceRow).map maskNeg else rows.map coerceRow) = _
      rw [if_neg hneg]
    have hzero : (rows.map coerceRow).countP (fun r => isNegB r.points) = 0 :=
      Nat.eq_zero_of_not_pos hneg
    have hnn : isNegB ((coerceRow (rows.get ⟨i, h2⟩)).points) = false := by
      have hmem : coerceRow (rows.get ⟨i, h2⟩) ∈ rows.map coerceRow :=
        List.mem_map.mpr ⟨rows.get ⟨i, h2⟩, List.get_mem _ _ _, rfl⟩
      have := List.countP_eq_zero.mp hzero _ hmem
      simpa using this
    rw [List.get_of_eq he, List.get_map, maskNeg_of_not_neg hnn]

/-- Claim C7: sanitization keeps every row (same count, all other fields
unchanged) while every points value failing numeric coercion becomes
missing instead of raising, every negative value becomes missing rather
than clamped to zero, and the negative-points counter equals exactly the
number of negative values. -/
theorem clean_values_spec (rows : List CVRow) :
    ((clean_values rows).1.length = rows.length)
  ∧ (∀ i (h1 : i < (clean_values rows).1.length) (h2 : i < rows.length),
      (clean_values rows).1.get ⟨i, h1⟩ =
        ⟨(rows.get ⟨i, h2⟩).race_id, (rows.get ⟨i, h2⟩).race_date,
         (rows.get ⟨i, h2⟩).m, (rows.get ⟨i, h2⟩).constructor_id,
         (rows.get ⟨i, h2⟩).constructor_name,
         sanitizePoints ((rows.get ⟨i, h2⟩).points)⟩)
  ∧ ((clean_values rows).2.neg_points_found =
      rows.countP fun r => isNegB (toNumericCoerce r.points)) := by
  refine ⟨?_, ?_, ?_⟩
  · show (if (rows.map coerceRow).countP (fun r => isNegB r.points) > 0
        then (rows.map coerceRow).map maskNeg else rows.map coerceRow).length = _
    by_cases hneg : (rows.map coerceRow).countP (fun r => isNegB r.points) > 0
    · rw [if_pos hneg, List.length_map, List.length_map]
    · rw [if_neg hneg, List.length_map]
  · intro i h1 h2
    rw [clean_values_fst_get rows i h1 h2, maskNeg_coerceRow]
  · show (rows.map coerceRow).countP (fun r => isNegB r.points) = _
    rw [List.countP_map]
    rfl

/-- Claim C7 witness: on a concrete record set holding a negative value,
an uncoercible string and a plain value, the first row is kept with its
points sanitized to missing and the counter reports exactly one negative
value. -/
theorem clean_values_spec_w :
    (clean_values cvRowsW).1.get ⟨0, by decide⟩ =
      ⟨(cvRowsW.get ⟨0, by decide⟩).race_id, (cvRowsW.get ⟨0, by decide⟩).race_date,
       (cvRowsW.get ⟨0, by decide⟩).m, (cvRowsW.get ⟨0, by decide⟩).constructor_id,
       (cvRowsW.get ⟨0, by decide⟩).constructor_name,
       sanitizePoints ((cvRowsW.get ⟨0, by decide⟩).points)⟩
  ∧ (clean_values cvRowsW).2.neg_points_found = 1
  ∧ (clean_values cvRowsW).1.length = cvRowsW.length := by
  refine ⟨(clean_values_spec cvRowsW).2.1 0 (by decide) (by decide), ?_,
    (clean_values_spec cvRowsW).1⟩
  rw [(clean_values_spec cvRowsW).2.2]
  decide

end Tracker
